import Mathlib

/-!
Verification development for the cordette module-hosting core
(src/host.ts, src/module.ts, src/module_types.ts).

The TypeScript source is shallowly embedded: JavaScript objects keyed by
strings become insertion-ordered association lists (`List (String × _)`),
the discord.js `Client` becomes an explicit record threaded through the
operations that touch it, closures registered as listeners are identified
by a numeric reference (`handlerRef`) standing for JavaScript function
identity, and asynchronous methods become pure state transformers (the
spec's claims concern the sequential behaviour of each operation).
-/

namespace Cordette

/-- Insertion-ordered association-list lookup, mirroring `obj[key]` /
`Map.get` on string-keyed collections. -/
def lookupKey {α : Type} (l : List (String × α)) (k : String) : Option α :=
  (l.find? (fun p => p.1 == k)).map Prod.snd

/-- Assignment `obj[key] = v` / `Map.set`: overwrite in place when the key
is already present (JavaScript keeps the original insertion position),
otherwise append at the end. -/
def insertOverwrite {α : Type} (l : List (String × α)) (k : String) (v : α) :
    List (String × α) :=
  if l.any (fun p => p.1 == k) then
    l.map (fun p => if p.1 == k then (k, v) else p)
  else
    l ++ [(k, v)]

/-- `delete obj[key]` / `Map.delete`. -/
def removeKey {α : Type} (l : List (String × α)) (k : String) : List (String × α) :=
  l.filter (fun p => p.1 != k)

/-! ## Command identities and `commandDiff` (src/host.ts lines 21-43) -/

/-- `interface CommandID { guild?: string, id: string }` from src/host.ts.
An absent guild (`none`) is the global scope. -/
structure CommandID where
  guild : Option String
  id : String
deriving DecidableEq, Repr

/-- One stored command record: the fields of the entries of
`Module.slashCommands` / `Module.contextMenuCommands` that the host reads
(`guild`, `builder.name`) together with the identity of the registered
dispatch-guard closure. -/
structure CmdRecord where
  guild : Option String
  builderName : String
  handlerRef : Nat
deriving DecidableEq, Repr

/-- `Pick<Module, 'slashCommands' | 'contextMenuCommands'>`: the two
string-keyed command registries of a module. -/
structure CmdSnapshot where
  slashCommands : List (String × CmdRecord)
  contextMenuCommands : List (String × CmdRecord)
deriving DecidableEq, Repr

/-- The empty snapshot `{ slashCommands: {}, contextMenuCommands: {} }`
substituted for a null `before` in `commandDiff`. -/
def emptyCmdSnapshot : CmdSnapshot := ⟨[], []⟩

/-- `summarize` inside `commandDiff`: flatten both registries (object
values in insertion order) and project each record to its identity. -/
def summarize (registry : CmdSnapshot) : List CommandID :=
  (registry.slashCommands.map Prod.snd ++ registry.contextMenuCommands.map Prod.snd).map
    (fun cmd => ⟨cmd.guild, cmd.builderName⟩)

/-- `equal` inside `commandDiff`: exact match on both fields
(`a.id === b.id && a.guild === b.guild`). -/
def cidEqual (a b : CommandID) : Bool :=
  a.id == b.id && a.guild == b.guild

/-- Result type of `commandDiff`. -/
structure CmdDiff where
  remove : List CommandID
  upsert : List CommandID
deriving DecidableEq, Repr

/-- `commandDiff` from src/host.ts: `remove` keeps every before-identity
with no equal after-identity; `upsert` is the entire after-identity
list. -/
def commandDiff (beforeOrNull : Option CmdSnapshot) (after : CmdSnapshot) : CmdDiff :=
  let before := match beforeOrNull with
    | none => emptyCmdSnapshot
    | some b => b
  let beforeSumm := summarize before
  let afterSumm := summarize after
  { remove := beforeSumm.filter (fun old => !(afterSumm.any (fun n => cidEqual old n)))
    upsert := afterSumm }

/-! ## Connection and module state (src/module.ts) -/

/-- One subscription installed on the discord.js `Client`: the event
name, the identity of the callback closure, and whether `client.once`
(one-shot) or `client.on` (persistent) installed it. -/
structure Listener where
  event : String
  handlerRef : Nat
  once : Bool
deriving DecidableEq, Repr

/-- The borrowed discord.js `Client`: its installed listeners (in
installation order — `on`/`once` append), its `options.intents`
capability subscription (an `IntentsBitField`, modelled as the list of
subscribed intent bits with membership as the set semantics), and its
`isReady()` login flag. -/
structure Client where
  listeners : List Listener
  intents : List Nat
  ready : Bool
deriving DecidableEq, Repr

/-- `client.on(event, handler)`: append a persistent subscription. -/
def Client.on (c : Client) (evt : String) (ref : Nat) : Client :=
  { c with listeners := c.listeners ++ [⟨evt, ref, false⟩] }

/-- `client.once(event, handler)`: append a one-shot subscription. -/
def Client.onceSub (c : Client) (evt : String) (ref : Nat) : Client :=
  { c with listeners := c.listeners ++ [⟨evt, ref, true⟩] }

/-- Remove the first subscription matching the event name and callback
identity; `emitter.removeListener` removes at most one matching
occurrence (which occurrence is removed is multiset-irrelevant here). -/
def removeFirst : List Listener → String → Nat → List Listener
  | [], _, _ => []
  | l :: ls, evt, ref =>
    if l.event = evt ∧ l.handlerRef = ref then ls
    else l :: removeFirst ls evt ref

/-- `client.removeListener(event, handler)`. -/
def Client.removeListener (c : Client) (evt : String) (ref : Nat) : Client :=
  { c with listeners := removeFirst c.listeners evt ref }

/-- `client.destroy()`: the connection is torn down. -/
def Client.destroy (c : Client) : Client :=
  { c with ready := false }

/-- The name of the single multiplexed `Events.InteractionCreate`
channel every command guard subscribes to. -/
def interactionCreateEvent : String := "interactionCreate"

/-- `class HandlerID`: a tagged wrapper around the token string. -/
structure HandlerID where
  id : String
deriving DecidableEq, Repr

/-- One entry of `Module.eventHandlers`: the triggering event names, the
one-shot flag, and the identity of the stored callback. -/
structure EventHandlerRec where
  events : List String
  once : Bool
  handlerRef : Nat
deriving DecidableEq, Repr

/-- `class Module` from src/module.ts.  The `client` field of the class
is the shared borrowed connection; it is threaded explicitly through the
operations that touch it.  `ref` models the JavaScript object identity
of this `Module` instance (`===` comparison in the host). -/
structure Module where
  id : String
  intents : List Nat
  ref : Nat
  eventHandlers : List (String × EventHandlerRec)
  slashCommands : List (String × CmdRecord)
  contextMenuCommands : List (String × CmdRecord)
deriving DecidableEq, Repr

/-- The command snapshot of a module that `commandDiff` consumes. -/
def Module.cmdSnapshot (m : Module) : CmdSnapshot :=
  ⟨m.slashCommands, m.contextMenuCommands⟩

/-- `[...Object.values(this.slashCommands), ...Object.values(this.contextMenuCommands)]`. -/
def Module.cmdHandlers (m : Module) : List CmdRecord :=
  m.slashCommands.map Prod.snd ++ m.contextMenuCommands.map Prod.snd

/-- The private `Module.handler` method (src/module.ts lines 75-84),
shared by `when` and `once`: store the callback under a freshly
generated id and return the token.  The generated id
`this.id ++ ": when #" ++ shortid()` is nondeterministic, so it enters
as the `freshTok` parameter; `handlerRef` is the identity of the
callback closure.  The method body never touches `this.client`, so the
connection is returned unchanged. -/
def Module.handlerReg (m : Module) (c : Client) (events : List String)
    (handlerRef : Nat) (once : Bool) (freshTok : String) :
    Module × Client × HandlerID :=
  ({ m with eventHandlers := insertOverwrite m.eventHandlers freshTok ⟨events, once, handlerRef⟩ },
    c, ⟨freshTok⟩)

/-- `Module.when`: persistent event-handler registration. -/
def Module.when (m : Module) (c : Client) (events : List String)
    (handlerRef : Nat) (freshTok : String) : Module × Client × HandlerID :=
  m.handlerReg c events handlerRef false freshTok

/-- `Module.once`: one-shot event-handler registration. -/
def Module.onceReg (m : Module) (c : Client) (events : List String)
    (handlerRef : Nat) (freshTok : String) : Module × Client × HandlerID :=
  m.handlerReg c events handlerRef true freshTok

/-- `Module.remove` (src/module.ts lines 229-244): look the token up
among the event-handler registry, then the two command registries;
detach the matching subscription(s) from the client and report success.
The registries themselves are left untouched. -/
def Module.removeTok (m : Module) (c : Client) (handler : HandlerID) : Bool × Client :=
  match lookupKey m.eventHandlers handler.id with
  | some eventHandler =>
    (true, eventHandler.events.foldl
      (fun cl evt => cl.removeListener evt eventHandler.handlerRef) c)
  | none =>
    match (lookupKey m.slashCommands handler.id).orElse
        (fun _ => lookupKey m.contextMenuCommands handler.id) with
    | some command => (true, c.removeListener interactionCreateEvent command.handlerRef)
    | none => (false, c)

/-- `Module.applyToClient` (src/module.ts lines 246-262): subscribe every
stored event handler for each of its events (per its once flag) and
every command guard to the interaction channel. -/
def Module.applyToClient (m : Module) (c : Client) : Client :=
  let c1 := m.eventHandlers.foldl
    (fun cl p => p.2.events.foldl
      (fun cl2 evt =>
        if p.2.once then cl2.onceSub evt p.2.handlerRef
        else cl2.on evt p.2.handlerRef) cl) c
  m.cmdHandlers.foldl (fun cl cmd => cl.on interactionCreateEvent cmd.handlerRef) c1

/-- `Module.clearFromClient` (src/module.ts lines 264-276): the
bulk-unsubscribe mirroring `applyToClient`. -/
def Module.clearFromClient (m : Module) (c : Client) : Client :=
  let c1 := m.eventHandlers.foldl
    (fun cl p => p.2.events.foldl
      (fun cl2 evt => cl2.removeListener evt p.2.handlerRef) cl) c
  m.cmdHandlers.foldl (fun cl cmd => cl.removeListener interactionCreateEvent cmd.handlerRef) c1

/-- The list of subscriptions `applyToClient` installs, in installation
order. -/
def Module.attachPairs (m : Module) : List Listener :=
  (m.eventHandlers.map
    (fun p => p.2.events.map (fun e => (⟨e, p.2.handlerRef, p.2.once⟩ : Listener)))).flatten ++
  m.cmdHandlers.map (fun cmd => (⟨interactionCreateEvent, cmd.handlerRef, false⟩ : Listener))

/-- The callback identities owned by a module's registrations. -/
def Module.handlerRefs (m : Module) : List Nat :=
  m.eventHandlers.map (fun p => p.2.handlerRef) ++ m.cmdHandlers.map (fun cmd => cmd.handlerRef)

/-! ## Slash and menu command registration (src/module.ts lines 86-112 and 194-227) -/

/-- The part of a `SlashCommandBuilder` this core reads:
`setName`/`setDescription` seed it, an optional build step may transform
it, and `name` feeds `commandDiff` while `toJSON` feeds the registry
upsert body. -/
structure SlashBuilder where
  name : String
  description : String
deriving DecidableEq, Repr

/-- `ApplicationCommandType.User | ApplicationCommandType.Message`. -/
inductive AppCommandType where
  | user
  | message
deriving DecidableEq, Repr

/-- The part of a `ContextMenuCommandBuilder` this core reads. -/
structure MenuBuilder where
  name : String
  type : AppCommandType
deriving DecidableEq, Repr

/-- The registration-relevant fields of `CommandConfig` for a slash
command: the optional guild scope and the optional builder-mutation
step.  The check/run steps only matter to the dispatch guard, whose
behaviour is modelled separately; `handlerRef` (passed alongside) stands
for the guard closure built from them. -/
structure SlashRegConfig where
  guild : Option String
  build : Option (SlashBuilder → SlashBuilder)

/-- The registration-relevant fields of a menu command's config. -/
structure MenuRegConfig where
  guild : Option String
  build : Option (MenuBuilder → MenuBuilder)

/-- `CommandConfigOrOnRun` for slash registration: a bare run function
carries no guild and no build step. -/
inductive SlashConfigOrOnRun where
  | bareRun
  | config (cfg : SlashRegConfig)

/-- `CommandConfigOrOnRun` for menu registration. -/
inductive MenuConfigOrOnRun where
  | bareRun
  | config (cfg : MenuRegConfig)

/-- The normalization `configOrOnRun instanceof Function ? { run: configOrOnRun } : configOrOnRun`. -/
def normalizeSlash : SlashConfigOrOnRun → SlashRegConfig
  | .bareRun => ⟨none, none⟩
  | .config cfg => cfg

/-- Menu-side normalization, identical in shape. -/
def normalizeMenu : MenuConfigOrOnRun → MenuRegConfig
  | .bareRun => ⟨none, none⟩
  | .config cfg => cfg

/-- Lower-case hexadecimal digit, as `JSON.stringify` emits. -/
def hexDigit (n : Nat) : Char :=
  if n < 10 then Char.ofNat (48 + n) else Char.ofNat (87 + n)

/-- The escaping `JSON.stringify` applies to one character of a string. -/
def jsonEscapeChar (c : Char) : String :=
  if c = '"' then "\\\""
  else if c = '\\' then "\\\\"
  else if c = Char.ofNat 8 then "\\b"
  else if c = Char.ofNat 9 then "\\t"
  else if c = Char.ofNat 10 then "\\n"
  else if c = Char.ofNat 12 then "\\f"
  else if c = Char.ofNat 13 then "\\r"
  else if c.toNat < 32 then
    "\\u00" ++ String.mk [hexDigit (c.toNat / 16), hexDigit (c.toNat % 16)]
  else String.singleton c

/-- `JSON.stringify` on a string: the label quoted and escaped. -/
def jsonStringify (s : String) : String :=
  "\"" ++ String.join (s.toList.map jsonEscapeChar) ++ "\""

/-- `Module.slash` (src/module.ts lines 86-112): the token is the
deterministic string `` `${this.id}: /${command}` ``; the builder is
seeded with the name and description, optionally transformed by the
build step, and the record {scope, final builder, guard} is stored under
the token, overwriting any earlier record under the same key.
`handlerRef` is the identity of the fresh guard closure
(`this.slashHandler(command, id, config)`). -/
def Module.slash (m : Module) (command description : String)
    (configOrOnRun : SlashConfigOrOnRun) (handlerRef : Nat) : Module × HandlerID :=
  let id := m.id ++ ": /" ++ command
  let builder : SlashBuilder := ⟨command, description⟩
  let config := normalizeSlash configOrOnRun
  let finalBuilder := match config.build with
    | some build => build builder
    | none => builder
  ({ m with slashCommands :=
      insertOverwrite m.slashCommands id ⟨config.guild, finalBuilder.name, handlerRef⟩ },
    ⟨id⟩)

/-- `Module.menu` (src/module.ts lines 194-227): the token is
`` `${this.id}: ContextMenu ${JSON.stringify(label)}` ``; the guard
constructor is chosen statically from the target kind (both specialize
the same `checkThenRun`), and the record is stored under the token,
overwriting any earlier record under the same key. -/
def Module.menu (m : Module) (label : String) (type : AppCommandType)
    (configOrOnRun : MenuConfigOrOnRun) (handlerRef : Nat) : Module × HandlerID :=
  let id := m.id ++ ": ContextMenu " ++ jsonStringify label
  let builder : MenuBuilder := ⟨label, type⟩
  let config := normalizeMenu configOrOnRun
  let finalBuilder := match config.build with
    | some build => build builder
    | none => builder
  ({ m with contextMenuCommands :=
      insertOverwrite m.contextMenuCommands id ⟨config.guild, finalBuilder.name, handlerRef⟩ },
    ⟨id⟩)

/-- The number of entries stored under a key in a registry. -/
def countKey {α : Type} (l : List (String × α)) (k : String) : Nat :=
  (l.filter (fun p => p.1 == k)).length

/-! ## The dispatch guard `Module.checkThenRun` (src/module.ts lines 150-192)

The guard is evaluated at one incoming interaction.  The behaviour of
the user-supplied check and run steps at that interaction enters as
data: a step either resolves to a value or throws (thrown values are
identified with their message strings, as the source only ever reads
the message).  `intx.reply`/`intx.followUp` are remote sends that may
themselves fail; their outcomes at this interaction enter as the oracle
`sendOutcomes` (`none` = the send succeeds, `some e` = it throws `e`;
an exhausted oracle means every further send succeeds). -/

/-- Outcome of the check or run step at this interaction. -/
inductive StepOutcome (T : Type) where
  | ok (value : T)
  | threw (msg : String)
deriving DecidableEq, Repr

/-- What `run` handed back when it resolved: `typeof result === 'string'`
distinguishes a plain string from a structured reply payload. -/
inductive RunPayload where
  | str (s : String)
  | structured (payload : String)
deriving DecidableEq, Repr

/-- Behaviour of the run step at this interaction.  `setsReplied` records
whether the step replied to the interaction on its own (run receives the
full interaction and may do so) before resolving or throwing. -/
structure RunBehavior where
  setsReplied : Bool
  outcome : StepOutcome (Option RunPayload)

/-- `CommandConfig` as the guard consumes it, specialized to this
interaction: the guild scope, the optional check step's behaviour, and
the run step's behaviour as a function of the resolved check value. -/
structure GuardConfig (T : Type) where
  guild : Option String
  check : Option (StepOutcome T)
  run : Option T → RunBehavior

/-- The mutable per-interaction state the guard observes: the
originating guild, discord.js's `replied` flag, and the send oracle. -/
structure IState where
  guildId : Option String
  replied : Bool
  sendOutcomes : List (Option String)
deriving DecidableEq, Repr

/-- One `reply`/`followUp` attempt: consume the next oracle entry; a
successful send marks the interaction replied. -/
def attemptSend (st : IState) : Option String × IState :=
  match st.sendOutcomes with
  | [] => (none, { st with replied := true })
  | o :: rest =>
    (o, { st with sendOutcomes := rest, replied := st.replied || o.isNone })

/-- The argument the guard passed to `reply`/`followUp`. -/
inductive ReplyArg where
  | text (content : String) (ephemeral : Bool)
  | raw (payload : String)
deriving DecidableEq, Repr

/-- Whether the guard used `intx.reply` or `intx.followUp`. -/
inductive SendKind where
  | reply
  | followUp
deriving DecidableEq, Repr

/-- One successful send issued by the guard. -/
structure Sent where
  kind : SendKind
  arg : ReplyArg
deriving DecidableEq, Repr

/-- Everything observable about one guard invocation: the final
interaction state, the successful sends in order, the console log lines,
and the exception propagated to the caller, if any. -/
structure GuardResult where
  state : IState
  sent : List Sent
  logs : List String
  thrown : Option String
deriving DecidableEq, Repr

/-- Modelled from the spec: the error-notice formatter built over
`stripMarkdownTag` from './utils', which is not among the source files;
the spec only requires "a formatted error notice" derived from the
failure, so the notice is the failure message under a fixed banner. -/
def errorNotice (msg : String) : String :=
  "❗ There was an error." ++ msg

/-- The catch-all branch of `checkThenRun` (src/module.ts lines
177-191): log the failure with the registration's id, then send the
error notice — a follow-up when a reply was already issued, a fresh
reply otherwise; a failure of that send is logged and swallowed. -/
def dispatchFailure (id : String) (err : String) (st : IState) : GuardResult :=
  let logs := [id ++ " failed", err]
  let kind := if st.replied then SendKind.followUp else SendKind.reply
  let (sendErr, stNext) := attemptSend st
  match sendErr with
  | none =>
    { state := stNext, sent := [⟨kind, .text (errorNotice err) true⟩],
      logs := logs, thrown := none }
  | some _ =>
    { state := stNext, sent := [],
      logs := logs ++ ["Catastrophic failure trying to react to error"],
      thrown := none }

/-- The body of the guard after the check step resolved (the second
`try` of `checkThenRun`, src/module.ts lines 168-191). -/
def runPhase {T : Type} (id : String) (cfg : GuardConfig T) (st : IState)
    (resolved : Option T) : GuardResult :=
  let rb := cfg.run resolved
  let st1 := if rb.setsReplied then { st with replied := true } else st
  match rb.outcome with
  | .threw e => dispatchFailure id e st1
  | .ok none => { state := st1, sent := [], logs := [], thrown := none }
  | .ok (some (.str s)) =>
    let (sendErr, st2) := attemptSend st1
    match sendErr with
    | none => { state := st2, sent := [⟨.reply, .text s true⟩], logs := [], thrown := none }
    | some e => dispatchFailure id e st2
  | .ok (some (.structured p)) =>
    let (sendErr, st2) := attemptSend st1
    match sendErr with
    | none => { state := st2, sent := [⟨.reply, .raw p⟩], logs := [], thrown := none }
    | some e => dispatchFailure id e st2

/-- `Module.checkThenRun` (src/module.ts lines 150-192): silently ignore
a guild-scoped command fired from another guild; treat a throwing check
as a recovered rejection replied back to the user (note: that rejection
reply is not inside any try block — its failure escapes the guard);
otherwise hand the resolved value to the run phase. -/
def checkThenRun {T : Type} (id : String) (cfg : GuardConfig T) (st : IState) :
    GuardResult :=
  if cfg.guild.isSome ∧ st.guildId ≠ cfg.guild then
    { state := st, sent := [], logs := [], thrown := none }
  else
    match cfg.check with
    | some (.threw msg) =>
      let (sendErr, st1) := attemptSend st
      match sendErr with
      | none =>
        { state := st1, sent := [⟨.reply, .text msg true⟩], logs := [], thrown := none }
      | some e =>
        { state := st1, sent := [], logs := [], thrown := some e }
    | some (.ok v) => runPhase id cfg st (some v)
    | none => runPhase id cfg st none

/-- The guard's view of the check step: `none` when the check threw
(a recovered rejection), otherwise the value `resolved` carries into
run (`undefined` when there is no check step). -/
def resolvedOf {T : Type} : Option (StepOutcome T) → Option (Option T)
  | some (.threw _) => none
  | some (.ok v) => some (some v)
  | none => some none

/-! ## The host (src/host.ts lines 45-150) -/

/-- A call issued against the remote command registry
(`deleteAppCommand` / `upsertAppCommand`); the upsert body stands for
`builder.toJSON()`, of which this core only determines the name. -/
inductive RestCall where
  | deleteCmd (name : String) (guild : Option String)
  | upsertCmd (builderName : String) (guild : Option String)
deriving DecidableEq, Repr

/-- `GatewayIntentBits.Guilds`. -/
def guildsIntent : Nat := 1
/-- `GatewayIntentBits.GuildMessages`. -/
def guildMessagesIntent : Nat := 512
/-- `GatewayIntentBits.MessageContent`. -/
def messageContentIntent : Nat := 32768

/-- The identity of the `Events.ClientReady` logging listener the host
installs in `resetClient`. -/
def hostReadyRef : Nat := 0

/-- The event name of `Events.ClientReady`. -/
def clientReadyEvent : String := "ready"

/-- `class ModuleHost`: the active collection, the staged collection,
the one shared client, and the log of registry calls issued so far (the
claims concern runs in which every registry call succeeds). -/
structure ModuleHost where
  modules : List (String × Module)
  stagedModules : List (String × Module)
  client : Client
  rest : List RestCall
deriving DecidableEq, Repr

/-- The `ModuleHost` constructor: empty collections and a client
subscribed to the three default intents. -/
def ModuleHost.make : ModuleHost :=
  { modules := []
    stagedModules := []
    client := ⟨[], [guildMessagesIntent, guildsIntent, messageContentIntent], false⟩
    rest := [] }

/-- `ModuleHost.module` (beginModule): place a fresh module into the
staged collection and hand it to the caller.  `ref` is the identity of
the fresh `Module` instance. -/
def ModuleHost.beginModule (h : ModuleHost) (id : String) (intents : List Nat)
    (ref : Nat) : ModuleHost × Module :=
  let mod : Module := ⟨id, intents, ref, [], [], []⟩
  ({ h with stagedModules := insertOverwrite h.stagedModules id mod }, mod)

/-- `ModuleHost.remove` (src/host.ts lines 61-75).  The conflict checks
precede every mutation, so a failure (`some` message) leaves the state
untouched; on success the stored module is detached, its remote
commands deleted, the active entry dropped, and the capability
subscription rebuilt as exactly the remaining modules' union
(`new IntentsBitField(...)`). -/
def ModuleHost.remove (h : ModuleHost) (module : Module) : ModuleHost × Option String :=
  match lookupKey h.modules module.id with
  | none => (h, some "We cannot unregister a module that is not registered")
  | some mod =>
    if module.ref ≠ mod.ref then
      (h, some ("The registered module with ID " ++ jsonStringify module.id ++
        " is different from the given module despite having the same ID"))
    else
      let c1 := mod.clearFromClient h.client
      let deletes := mod.cmdHandlers.map
        (fun cmd => RestCall.deleteCmd cmd.builderName cmd.guild)
      let modules1 := removeKey h.modules module.id
      let c2 := { c1 with intents := (modules1.map Prod.snd).map Module.intents |>.flatten }
      ({ h with modules := modules1, client := c2, rest := h.rest ++ deletes }, none)

/-- `ModuleHost.resetClient` (src/host.ts lines 121-137): drop every
listener, destroy, grow the capability subscription by every active
module's requirements (`IntentsBitField.add`), install the host's
ready-logging listener, re-attach every active module, and log back in
when the client had been ready. -/
def ModuleHost.resetClient (h : ModuleHost) : ModuleHost :=
  let loggedIn := h.client.ready
  let c1 := { h.client with listeners := [] }
  let c2 := c1.destroy
  let wanted := ((h.modules.map Prod.snd).map Module.intents).flatten
  let c3 := { c2 with intents := c2.intents ++ wanted.filter (fun i => !(c2.intents.contains i)) }
  let c4 := c3.onceSub clientReadyEvent hostReadyRef
  let c5 := (h.modules.map Prod.snd).foldl (fun cl m => m.applyToClient cl) c4
  let c6 := if loggedIn then { c5 with ready := true } else c5
  { h with client := c6 }

/-- One iteration of the `commitStaged` loop (src/host.ts lines 84-114)
for the staged id `newId`: detach the superseded active module, attach
the staged one, synchronize the remote registry from `commandDiff`,
promote staged to active, and reconnect when the staged module's
intents are not yet subscribed. -/
def ModuleHost.commitOne (h : ModuleHost) (newId : String) : ModuleHost :=
  match lookupKey h.stagedModules newId with
  | none => h
  | some after =>
    let maybeBefore := lookupKey h.modules newId
    let c1 := match maybeBefore with
      | some before => before.clearFromClient h.client
      | none => h.client
    let c2 := after.applyToClient c1
    let diff := commandDiff (maybeBefore.map Module.cmdSnapshot) after.cmdSnapshot
    let restDeletes := diff.remove.map (fun cid => RestCall.deleteCmd cid.id cid.guild)
    let restUpserts := after.cmdHandlers.map
      (fun it => RestCall.upsertCmd it.builderName it.guild)
    let h1 := { h with
      modules := insertOverwrite h.modules newId after
      stagedModules := removeKey h.stagedModules newId
      client := c2
      rest := h.rest ++ restDeletes ++ restUpserts }
    let missingIntents := after.intents.filter (fun i => !(c2.intents.contains i))
    if missingIntents.isEmpty then h1
    else
      ({ h1 with client := h1.client.destroy }).resetClient

/-- The `for (const newId of this.stagedModules.keys())` loop. -/
def ModuleHost.commitLoop (h : ModuleHost) : List String → ModuleHost
  | [] => h
  | k :: ks => ModuleHost.commitLoop (h.commitOne k) ks

/-- `ModuleHost.commitStaged`: process every staged id, strictly in
order, each to completion before the next. -/
def ModuleHost.commitStaged (h : ModuleHost) : ModuleHost :=
  h.commitLoop (h.stagedModules.map Prod.fst)

/-- `ModuleHost.start`. -/
def ModuleHost.start (h : ModuleHost) : ModuleHost :=
  { h with client := { h.client with ready := true } }

/-- The connection's capability subscription covers every capability
required by any active module. -/
def intentsCovered (h : ModuleHost) : Prop :=
  ∀ p ∈ h.modules, ∀ i ∈ p.2.intents, i ∈ h.client.intents

/-- Every registration of every active module is subscribed on the
connection. -/
def allAttached (h : ModuleHost) : Prop :=
  ∀ p ∈ h.modules, ∀ l ∈ p.2.attachPairs, l ∈ h.client.listeners

/-- A module has some registration of its own live on the connection. -/
def Module.liveOn (m : Module) (c : Client) : Prop :=
  ∃ l ∈ c.listeners, l.handlerRef ∈ m.handlerRefs

/-- The sequence of client states traversed by steps 1-2 of one
`commitStaged` iteration that replaces `before` by `after`, at the
granularity of the individual `removeListener` and `on`/`once` calls:
first `before.clearFromClient()` removes its subscriptions one by one,
then `after.applyToClient()` installs the new ones one by one. -/
def commitListenerTrace (before after : Module) (c : Client) : List Client :=
  let c1 := before.clearFromClient c
  (List.scanl (fun cl (l : Listener) => cl.removeListener l.event l.handlerRef)
    c before.attachPairs) ++
  (List.scanl (fun cl (l : Listener) => { cl with listeners := cl.listeners ++ [l] })
    c1 after.attachPairs)

theorem cidEqual_iff (a b : CommandID) : cidEqual a b = true ↔ b = a := by
  cases a with
  | mk ag ai =>
    cases b with
    | mk bg bi =>
      simp only [cidEqual, Bool.and_eq_true, beq_iff_eq, CommandID.mk.injEq]
      constructor
      · rintro ⟨h1, h2⟩
        exact ⟨h2.symm, h1.symm⟩
      · rintro ⟨h1, h2⟩
        exact ⟨h2.symm, h1.symm⟩

/-- Claim C4: for every pair of snapshots (before possibly absent), the
`remove` list of `commandDiff` contains an identity exactly when it is a
before-identity with no after-identity agreeing on both the scope and the
name; in particular an identity present in both snapshots never appears
in `remove`.  Scope equality is equality of `Option String`, so the
absent scope is distinct from every specific guild. -/
theorem commandDiff_remove_spec (b : Option CmdSnapshot) (a : CmdSnapshot) :
    (∀ x : CommandID,
      x ∈ (commandDiff b a).remove ↔
        (x ∈ summarize (match b with | none => emptyCmdSnapshot | some s => s) ∧
          ¬ ∃ y ∈ summarize a, y.guild = x.guild ∧ y.id = x.id)) ∧
    (∀ x : CommandID,
      x ∈ summarize (match b with | none => emptyCmdSnapshot | some s => s) →
      x ∈ summarize a → x ∉ (commandDiff b a).remove) := by
  constructor
  · intro x
    simp only [commandDiff, List.mem_filter, Bool.not_eq_eq_eq_not, Bool.not_true,
      List.any_eq_false]
    constructor
    · rintro ⟨hmem, hno⟩
      refine ⟨hmem, ?_⟩
      rintro ⟨y, hy, hg, hi⟩
      have hyx : y = x := by
        cases x; cases y
        cases hg; cases hi; rfl
      exact hno y hy ((cidEqual_iff x y).mpr hyx)
    · rintro ⟨hmem, hno⟩
      refine ⟨hmem, ?_⟩
      intro y hy hcontra
      rw [cidEqual_iff] at hcontra
      exact hno ⟨y, hy, by cases hcontra; exact ⟨rfl, rfl⟩⟩
  · intro x hb ha
    intro hmem
    simp only [commandDiff, List.mem_filter, Bool.not_eq_eq_eq_not, Bool.not_true,
      List.any_eq_false] at hmem
    exact hmem.2 x ha ((cidEqual_iff x x).mpr rfl)

/-- Claim C5: for every pair of snapshots, the `upsert` list of
`commandDiff` is the after-snapshot's full identity list — one entry per
slash and per menu command, carrying its (scope, name) pair — regardless
of the before snapshot. -/
theorem commandDiff_upsert_spec (b : Option CmdSnapshot) (a : CmdSnapshot) :
    (commandDiff b a).upsert =
      (a.slashCommands.map Prod.snd ++ a.contextMenuCommands.map Prod.snd).map
        (fun cmd => ⟨cmd.guild, cmd.builderName⟩) ∧
    (commandDiff b a).upsert.length =
      a.slashCommands.length + a.contextMenuCommands.length := by
  refine ⟨rfl, ?_⟩
  show (summarize a).length = _
  simp [summarize]

/-! ## Association-list helper lemmas -/

theorem lookupKey_map_overwrite {α : Type} (l : List (String × α)) (k : String) (v : α) :
    lookupKey (l.map (fun p => if p.1 == k then (k, v) else p)) k =
      (lookupKey l k).map (fun _ => v) := by
  induction l with
  | nil => rfl
  | cons p ps ih =>
    by_cases hk : p.1 = k
    · simp [lookupKey, List.find?, hk]
    · simp only [List.map_cons]
      rw [if_neg (by simpa using hk)]
      simp only [lookupKey, List.find?] at ih ⊢
      rw [show (p.1 == k) = false by simpa using hk]
      exact ih

theorem lookupKey_append_single {α : Type} (l : List (String × α)) (k : String) (v : α)
    (h : l.any (fun p => p.1 == k) = false) :
    lookupKey (l ++ [(k, v)]) k = some v := by
  induction l with
  | nil => simp [lookupKey, List.find?]
  | cons p ps ih =>
    simp only [List.any_cons, Bool.or_eq_false_iff] at h
    simp only [List.cons_append, lookupKey, List.find?, h.1]
    exact ih h.2

theorem any_key_true_of_lookup {α : Type} (l : List (String × α)) (k : String)
    (h : l.any (fun p => p.1 == k) = true) : (lookupKey l k).isSome := by
  induction l with
  | nil => simp at h
  | cons p ps ih =>
    simp only [List.any_cons, Bool.or_eq_true] at h
    by_cases hk : p.1 = k
    · simp [lookupKey, List.find?, hk]
    · simp only [lookupKey, List.find?]
      rw [show (p.1 == k) = false by simpa using hk]
      exact ih (h.resolve_left (by simpa using hk))

theorem lookupKey_insertOverwrite {α : Type} (l : List (String × α)) (k : String) (v : α) :
    lookupKey (insertOverwrite l k v) k = some v := by
  unfold insertOverwrite
  by_cases h : l.any (fun p => p.1 == k) = true
  · rw [if_pos h, lookupKey_map_overwrite]
    have := any_key_true_of_lookup l k h
    cases hv : lookupKey l k with
    | none => rw [hv] at this; simp at this
    | some w => simp
  · rw [if_neg h]
    exact lookupKey_append_single l k v (by
      simp only [Bool.not_eq_true] at h
      exact h)

theorem mem_insertOverwrite {α : Type} (l : List (String × α)) (k : String) (v : α)
    (p : String × α) (h : p ∈ insertOverwrite l k v) : p = (k, v) ∨ p ∈ l := by
  unfold insertOverwrite at h
  by_cases hc : l.any (fun q => q.1 == k) = true
  · rw [if_pos hc] at h
    rcases List.mem_map.mp h with ⟨q, hq, rfl⟩
    by_cases hk : q.1 = k
    · left; simp [hk]
    · right
      rw [if_neg (by simpa using hk)]
      exact hq
  · rw [if_neg hc] at h
    rcases List.mem_append.mp h with h1 | h1
    · right; exact h1
    · left; simpa using h1

theorem self_mem_insertOverwrite {α : Type} (l : List (String × α)) (k : String) (v : α) :
    (k, v) ∈ insertOverwrite l k v := by
  unfold insertOverwrite
  by_cases hc : l.any (fun q => q.1 == k) = true
  · rw [if_pos hc]
    rcases List.any_eq_true.mp hc with ⟨q, hq, hqk⟩
    refine List.mem_map.mpr ⟨q, hq, ?_⟩
    rw [if_pos hqk]
  · rw [if_neg hc]
    simp

theorem countKey_map_overwrite {α : Type} (l : List (String × α)) (k : String) (v : α) :
    countKey (l.map (fun p => if p.1 == k then (k, v) else p)) k = countKey l k := by
  induction l with
  | nil => rfl
  | cons p ps ih =>
    simp only [countKey, List.map_cons, List.filter_cons] at ih ⊢
    by_cases hk : (p.1 == k) = true
    · rw [if_pos hk]
      have hkv : (((k, v) : String × α).1 == k) = true := by simp
      simp only [hkv, hk, if_true, List.length_cons]
      omega
    · rw [if_neg hk]
      simp only [Bool.not_eq_true] at hk
      simp only [hk, Bool.false_eq_true, if_false]
      exact ih

theorem countKey_eq_zero_of_any_false {α : Type} (l : List (String × α)) (k : String) :
    l.any (fun p => p.1 == k) = false → countKey l k = 0 := by
  induction l with
  | nil => intro _; rfl
  | cons p ps ih =>
    intro h
    simp only [List.any_cons, Bool.or_eq_false_iff] at h
    simp only [countKey, List.filter_cons, h.1, Bool.false_eq_true, if_false]
    exact ih h.2

theorem countKey_insertOverwrite {α : Type} (l : List (String × α)) (k : String) (v : α)
    (h : countKey l k ≤ 1) : countKey (insertOverwrite l k v) k = 1 := by
  unfold insertOverwrite
  by_cases hc : l.any (fun p => p.1 == k) = true
  · rw [if_pos hc, countKey_map_overwrite]
    rcases List.any_eq_true.mp hc with ⟨q, hq, hqk⟩
    have hq1 : q ∈ List.filter (fun p => p.1 == k) l := List.mem_filter.mpr ⟨hq, hqk⟩
    have hpos : 0 < countKey l k := by
      simp only [countKey]
      exact List.length_pos.mpr (by
        intro hnil
        rw [hnil] at hq1
        simp at hq1)
    omega
  · rw [if_neg hc]
    have h0 := countKey_eq_zero_of_any_false l k (by
      simp only [Bool.not_eq_true] at hc
      exact hc)
    simp only [countKey, List.filter_append] at h0 ⊢
    simp [h0]

/-! ## Listener bookkeeping lemmas -/

theorem foldl_attach_events (events : List String) (r : Nat) (o : Bool) (c : Client) :
    events.foldl
      (fun cl evt => if o then cl.onceSub evt r else cl.on evt r) c =
      { c with listeners := c.listeners ++ events.map (fun e => ⟨e, r, o⟩) } := by
  induction events generalizing c with
  | nil => simp
  | cons e es ih =>
    simp only [List.foldl_cons, List.map_cons]
    rw [ih]
    cases o <;> simp [Client.on, Client.onceSub]

theorem foldl_attach_handlers (hs : List (String × EventHandlerRec)) (c : Client) :
    hs.foldl
      (fun cl p => p.2.events.foldl
        (fun cl2 evt =>
          if p.2.once then cl2.onceSub evt p.2.handlerRef
          else cl2.on evt p.2.handlerRef) cl) c =
      { c with listeners := c.listeners ++
          (hs.map (fun p => p.2.events.map
            (fun e => (⟨e, p.2.handlerRef, p.2.once⟩ : Listener)))).flatten } := by
  induction hs generalizing c with
  | nil => simp
  | cons p ps ih =>
    simp only [List.foldl_cons, List.map_cons, List.flatten_cons]
    rw [foldl_attach_events, ih]
    simp

theorem foldl_attach_cmds (cs : List CmdRecord) (c : Client) :
    cs.foldl (fun cl cmd => cl.on interactionCreateEvent cmd.handlerRef) c =
      { c with listeners := c.listeners ++
          cs.map (fun cmd => (⟨interactionCreateEvent, cmd.handlerRef, false⟩ : Listener)) } := by
  induction cs generalizing c with
  | nil => simp
  | cons cmd cmds ih =>
    simp only [List.foldl_cons, List.map_cons]
    rw [ih]
    simp [Client.on]

theorem applyToClient_eq (m : Module) (c : Client) :
    m.applyToClient c = { c with listeners := c.listeners ++ m.attachPairs } := by
  unfold Module.applyToClient Module.attachPairs
  rw [foldl_attach_handlers, foldl_attach_cmds]
  simp

theorem foldl_clear_events (events : List String) (r : Nat) (c : Client) :
    events.foldl (fun cl evt => cl.removeListener evt r) c =
      { c with listeners := events.foldl (fun ls e => removeFirst ls e r) c.listeners } := by
  induction events generalizing c with
  | nil => simp
  | cons e es ih =>
    simp only [List.foldl_cons]
    rw [ih]
    simp [Client.removeListener]

theorem foldl_clear_handlers (hs : List (String × EventHandlerRec)) (c : Client) :
    hs.foldl
      (fun cl p => p.2.events.foldl
        (fun cl2 evt => cl2.removeListener evt p.2.handlerRef) cl) c =
      { c with listeners := (hs.foldl
          (fun ls p => p.2.events.foldl (fun ls2 e => removeFirst ls2 e p.2.handlerRef) ls)
          c.listeners) } := by
  induction hs generalizing c with
  | nil => simp
  | cons p ps ih =>
    simp only [List.foldl_cons]
    rw [foldl_clear_events, ih]

theorem foldl_clear_cmds (cs : List CmdRecord) (c : Client) :
    cs.foldl (fun cl cmd => cl.removeListener interactionCreateEvent cmd.handlerRef) c =
      { c with listeners := (cs.foldl
          (fun ls cmd => removeFirst ls interactionCreateEvent cmd.handlerRef) c.listeners) } := by
  induction cs generalizing c with
  | nil => simp
  | cons cmd cmds ih =>
    simp only [List.foldl_cons]
    rw [ih]
    simp [Client.removeListener]

/-- The removal sequence of `clearFromClient` is exactly the projection
of `attachPairs`, folded over the listener list. -/
theorem clearFromClient_listeners (m : Module) (c : Client) :
    (m.clearFromClient c).listeners =
      m.attachPairs.foldl (fun ls l => removeFirst ls l.event l.handlerRef) c.listeners := by
  unfold Module.clearFromClient Module.attachPairs
  rw [foldl_clear_handlers, foldl_clear_cmds]
  simp only [List.foldl_append, List.foldl_flatten, List.foldl_map]

theorem clearFromClient_intents (m : Module) (c : Client) :
    (m.clearFromClient c).intents = c.intents ∧ (m.clearFromClient c).ready = c.ready := by
  unfold Module.clearFromClient
  rw [foldl_clear_handlers, foldl_clear_cmds]
  exact ⟨rfl, rfl⟩

/-- Removing a sequence of subscriptions exactly matching the listener
list drains it completely. -/
theorem removeSeq_self (ps : List Listener) :
    ps.foldl (fun ls l => removeFirst ls l.event l.handlerRef) ps = [] := by
  induction ps with
  | nil => rfl
  | cons p ps ih =>
    simp only [List.foldl_cons]
    rw [show removeFirst (p :: ps) p.event p.handlerRef = ps by
      simp [removeFirst]]
    exact ih

theorem removeFirst_subset (ls : List Listener) (evt : String) (r : Nat) :
    ∀ l ∈ removeFirst ls evt r, l ∈ ls := by
  induction ls with
  | nil => simp [removeFirst]
  | cons x xs ih =>
    intro l hl
    simp only [removeFirst] at hl
    by_cases hcond : x.event = evt ∧ x.handlerRef = r
    · rw [if_pos hcond] at hl
      exact List.mem_cons_of_mem x hl
    · rw [if_neg hcond] at hl
      rcases List.mem_cons.mp hl with rfl | h
      · simp
      · exact List.mem_cons_of_mem x (ih l h)

theorem attachPairs_ref_mem (m : Module) :
    ∀ l ∈ m.attachPairs, l.handlerRef ∈ m.handlerRefs := by
  intro l hl
  unfold Module.attachPairs at hl
  unfold Module.handlerRefs
  rcases List.mem_append.mp hl with h | h
  · rcases List.mem_flatten.mp h with ⟨sub, hsub, hlsub⟩
    rcases List.mem_map.mp hsub with ⟨p, hp, rfl⟩
    rcases List.mem_map.mp hlsub with ⟨e, _, rfl⟩
    exact List.mem_append.mpr (.inl (List.mem_map.mpr ⟨p, hp, rfl⟩))
  · rcases List.mem_map.mp h with ⟨cmd, hcmd, rfl⟩
    exact List.mem_append.mpr (.inr (List.mem_map.mpr ⟨cmd, hcmd, rfl⟩))

/-- Invariance along `List.scanl`: every intermediate state satisfies a
predicate preserved by each step. -/
theorem scanl_invariant {α β : Type} (f : α → β → α) (P : α → Prop) :
    ∀ (xs : List β) (a : α), P a → (∀ b ∈ xs, ∀ x, P x → P (f x b)) →
      ∀ s ∈ List.scanl f a xs, P s := by
  intro xs
  induction xs with
  | nil =>
    intro a ha _ s hs
    rw [List.scanl_nil] at hs
    rcases List.mem_singleton.mp hs with rfl
    exact ha
  | cons b bs ih =>
    intro a ha hstep s hs
    rw [List.scanl_cons, List.singleton_append] at hs
    rcases List.mem_cons.mp hs with rfl | hs2
    · exact ha
    · exact ih (f a b) (hstep b (List.mem_cons_self b bs) a ha)
        (fun y hy => hstep y (List.mem_cons_of_mem b hy)) s hs2

/-- Claim C4 witness: the remove characterization evaluated on concrete
snapshots — an identity present in both snapshots (global Praise) is not
removed. -/
theorem commandDiff_remove_spec_witness :
    ((⟨none, "Praise"⟩ : CommandID) ∈ summarize
        (match (some (⟨[("a", ⟨some "G", "imitate", 1⟩)],
          [("b", ⟨some "G", "Quote", 2⟩), ("c", ⟨none, "Praise", 3⟩)]⟩ : CmdSnapshot)) with
          | none => emptyCmdSnapshot
          | some s => s) ∧
      (⟨none, "Praise"⟩ : CommandID) ∈ summarize
        (⟨[("d", ⟨none, "quote", 4⟩)], [("e", ⟨none, "Praise", 5⟩)]⟩ : CmdSnapshot)) ∧
    (⟨none, "Praise"⟩ : CommandID) ∉
      (commandDiff
        (some ⟨[("a", ⟨some "G", "imitate", 1⟩)],
          [("b", ⟨some "G", "Quote", 2⟩), ("c", ⟨none, "Praise", 3⟩)]⟩)
        ⟨[("d", ⟨none, "quote", 4⟩)], [("e", ⟨none, "Praise", 5⟩)]⟩).remove :=
  ⟨⟨by decide, by decide⟩,
    (commandDiff_remove_spec
      (some ⟨[("a", ⟨some "G", "imitate", 1⟩)],
        [("b", ⟨some "G", "Quote", 2⟩), ("c", ⟨none, "Praise", 3⟩)]⟩)
      ⟨[("d", ⟨none, "quote", 4⟩)], [("e", ⟨none, "Praise", 5⟩)]⟩).2
      ⟨none, "Praise"⟩ (by decide) (by decide)⟩

/-! ## Claim C6: registration removal -/

/-- Claim C6 counterexample: on a module with one event-handler
registration, `remove` returns true on the first call with the token and
true again — not false — on the second call with the same token, because
`remove` never deletes the registry entry. -/
theorem removeTok_second_call_cx :
    ((⟨"M", [], 7, [("M: when #a", ⟨["messageCreate"], false, 42⟩)], [], []⟩ : Module).removeTok
        ⟨[⟨"messageCreate", 42, false⟩], [], false⟩ ⟨"M: when #a"⟩).1 = true ∧
    ¬(((⟨"M", [], 7, [("M: when #a", ⟨["messageCreate"], false, 42⟩)], [], []⟩ : Module).removeTok
        ((⟨"M", [], 7, [("M: when #a", ⟨["messageCreate"], false, 42⟩)], [], []⟩ : Module).removeTok
          ⟨[⟨"messageCreate", 42, false⟩], [], false⟩ ⟨"M: when #a"⟩).2 ⟨"M: when #a"⟩).1 = false) := by
  decide

/-- Claim C6 (amended): `Module.remove` returns true exactly when the
token is present among the module's event-handler or command registries;
since removal never deletes registry entries, the result is independent
of the connection state, so every repeated call with the same token
returns the same boolean (true again, not false). -/
theorem removeTok_spec (m : Module) (c c2 : Client) (tok : HandlerID) :
    ((m.removeTok c tok).1 = true ↔
      ((lookupKey m.eventHandlers tok.id).isSome ∨
        (lookupKey m.slashCommands tok.id).isSome ∨
        (lookupKey m.contextMenuCommands tok.id).isSome)) ∧
    (m.removeTok c tok).1 = (m.removeTok c2 tok).1 := by
  unfold Module.removeTok
  cases h1 : lookupKey m.eventHandlers tok.id with
  | some eh => simp
  | none =>
    cases h2 : lookupKey m.slashCommands tok.id with
    | some cmd => simp [Option.orElse]
    | none =>
      cases h3 : lookupKey m.contextMenuCommands tok.id with
      | some cmd => simp [Option.orElse]
      | none => simp [Option.orElse]

/-- Claim C6 witness: the amended statement evaluated on a concrete
module — the result of `remove` does not depend on the connection
state. -/
theorem removeTok_spec_witness :
    ((⟨"N", [], 1, [], [], []⟩ : Module).removeTok ⟨[], [], false⟩ ⟨"nope"⟩).1 =
      ((⟨"N", [], 1, [], [], []⟩ : Module).removeTok ⟨[], [5], true⟩ ⟨"nope"⟩).1 :=
  (removeTok_spec ⟨"N", [], 1, [], [], []⟩ ⟨[], [], false⟩ ⟨[], [5], true⟩ ⟨"nope"⟩).2

/-! ## Claim C8: event-handler registration and its frame effect -/

/-- Claim C8 counterexample: registering an event handler installs no
subscription on the connection at registration time — on a fresh module
and an empty connection, the listener the claim requires is absent. -/
theorem when_no_subscription_cx :
    ¬((⟨"messageCreate", 11, false⟩ : Listener) ∈
      (((⟨"E", [], 3, [], [], []⟩ : Module).when
        ⟨[], [], false⟩ ["messageCreate"] 11 "E: when #b").2.1).listeners) := by
  decide

/-- Claim C8 (amended): `when`/`once` (the shared `handler` method) store
the callback under the freshly generated id and return the connection
untouched; the subscription for each named event — persistent or
one-shot exactly per the once flag — is installed only later, when
`applyToClient` runs at commit time. -/
theorem handlerReg_spec (m : Module) (c : Client) (events : List String) (r : Nat)
    (o : Bool) (tok : String) :
    lookupKey (m.handlerReg c events r o tok).1.eventHandlers tok = some ⟨events, o, r⟩ ∧
    (m.handlerReg c events r o tok).2.1 = c ∧
    (∀ e ∈ events,
      (⟨e, r, o⟩ : Listener) ∈ ((m.handlerReg c events r o tok).1.applyToClient c).listeners) := by
  refine ⟨lookupKey_insertOverwrite _ _ _, rfl, ?_⟩
  intro e he
  rw [applyToClient_eq]
  simp only [List.mem_append]
  right
  unfold Module.attachPairs
  apply List.mem_append.mpr
  left
  apply List.mem_flatten.mpr
  refine ⟨events.map (fun e2 => ⟨e2, r, o⟩), ?_, List.mem_map.mpr ⟨e, he, rfl⟩⟩
  apply List.mem_map.mpr
  refine ⟨(tok, ⟨events, o, r⟩), ?_, rfl⟩
  exact self_mem_insertOverwrite _ _ _

/-- Claim C8 witness: the amended statement evaluated on a concrete
one-shot registration. -/
theorem handlerReg_spec_witness :
    ("messageCreate" ∈ ["messageCreate"]) ∧
    ((⟨"messageCreate", 11, true⟩ : Listener) ∈
      (((⟨"E", [], 3, [], [], []⟩ : Module).handlerReg
          ⟨[], [], false⟩ ["messageCreate"] 11 true "E: once #c").1.applyToClient
        ⟨[], [], false⟩).listeners) :=
  ⟨by decide,
    (handlerReg_spec ⟨"E", [], 3, [], [], []⟩ ⟨[], [], false⟩ ["messageCreate"] 11 true
      "E: once #c").2.2 "messageCreate" (by decide)⟩

/-! ## Claim C10: deterministic command tokens and overwrite on collision -/

/-- Claim C10: the slash token is the string `id ++ ": /" ++ command` and
the menu token is `id ++ ": ContextMenu " ++ JSON.stringify label`;
registering a second command under the same name (or label) returns an
equal token and overwrites the stored record, so only the latest
definition and guard remain under that key. -/
theorem slash_menu_token_spec (m : Module) (cmd d1 d2 label : String)
    (t1 t2 : AppCommandType) (cfg1 cfg2 : SlashConfigOrOnRun)
    (mg1 mg2 : MenuConfigOrOnRun) (r1 r2 : Nat)
    (hslash : countKey m.slashCommands (m.id ++ ": /" ++ cmd) ≤ 1)
    (hmenu : countKey m.contextMenuCommands
      (m.id ++ ": ContextMenu " ++ jsonStringify label) ≤ 1) :
    (m.slash cmd d1 cfg1 r1).2 = ⟨m.id ++ ": /" ++ cmd⟩ ∧
    (m.menu label t1 mg1 r1).2 = ⟨m.id ++ ": ContextMenu " ++ jsonStringify label⟩ ∧
    ((m.slash cmd d1 cfg1 r1).1.slash cmd d2 cfg2 r2).2 = (m.slash cmd d1 cfg1 r1).2 ∧
    lookupKey ((m.slash cmd d1 cfg1 r1).1.slash cmd d2 cfg2 r2).1.slashCommands
        (m.id ++ ": /" ++ cmd) =
      some ⟨(normalizeSlash cfg2).guild,
        (match (normalizeSlash cfg2).build with
          | some build => build ⟨cmd, d2⟩
          | none => ⟨cmd, d2⟩).name, r2⟩ ∧
    countKey ((m.slash cmd d1 cfg1 r1).1.slash cmd d2 cfg2 r2).1.slashCommands
      (m.id ++ ": /" ++ cmd) = 1 ∧
    ((m.menu label t1 mg1 r1).1.menu label t2 mg2 r2).2 = (m.menu label t1 mg1 r1).2 ∧
    lookupKey ((m.menu label t1 mg1 r1).1.menu label t2 mg2 r2).1.contextMenuCommands
        (m.id ++ ": ContextMenu " ++ jsonStringify label) =
      some ⟨(normalizeMenu mg2).guild,
        (match (normalizeMenu mg2).build with
          | some build => build ⟨label, t2⟩
          | none => ⟨label, t2⟩).name, r2⟩ ∧
    countKey ((m.menu label t1 mg1 r1).1.menu label t2 mg2 r2).1.contextMenuCommands
      (m.id ++ ": ContextMenu " ++ jsonStringify label) = 1 := by
  refine ⟨rfl, rfl, rfl, ?_, ?_, rfl, ?_, ?_⟩
  · exact lookupKey_insertOverwrite _ _ _
  · exact countKey_insertOverwrite _ _ _
      (le_of_eq (countKey_insertOverwrite _ _ _ hslash))
  · exact lookupKey_insertOverwrite _ _ _
  · exact countKey_insertOverwrite _ _ _
      (le_of_eq (countKey_insertOverwrite _ _ _ hmenu))

/-- Claim C10 witness: the statement evaluated on a concrete module with
a repeated slash name and a repeated menu label. -/
theorem slash_menu_token_spec_witness :
    (countKey (⟨"W", [], 1, [], [], []⟩ : Module).slashCommands
        ("W" ++ ": /" ++ "hi") ≤ 1 ∧
      countKey (⟨"W", [], 1, [], [], []⟩ : Module).contextMenuCommands
        ("W" ++ ": ContextMenu " ++ jsonStringify "Lbl") ≤ 1) ∧
    ((⟨"W", [], 1, [], [], []⟩ : Module).slash "hi" "d1"
      SlashConfigOrOnRun.bareRun 5).2 = ⟨"W" ++ ": /" ++ "hi"⟩ :=
  ⟨⟨by decide, by decide⟩,
    (slash_menu_token_spec ⟨"W", [], 1, [], [], []⟩ "hi" "d1" "d2" "Lbl"
      AppCommandType.user AppCommandType.user SlashConfigOrOnRun.bareRun
      SlashConfigOrOnRun.bareRun MenuConfigOrOnRun.bareRun MenuConfigOrOnRun.bareRun
      5 6 (by decide) (by decide)).1⟩

/-! ## Claims C7 and C3: the dispatch guard -/

theorem dispatchFailure_thrown (id e : String) (st : IState) :
    (dispatchFailure id e st).thrown = none := by
  unfold dispatchFailure
  rcases hs : attemptSend st with ⟨fst, snd⟩
  cases fst <;> simp [hs]

theorem runPhase_thrown {T : Type} (id : String) (cfg : GuardConfig T) (st : IState)
    (r : Option T) : (runPhase id cfg st r).thrown = none := by
  simp only [runPhase]
  cases ho : (cfg.run r).outcome with
  | threw e =>
    exact dispatchFailure_thrown id e _
  | ok pay =>
    cases pay with
    | none => simp
    | some p =>
      cases p with
      | str s =>
        rcases hs : attemptSend
          (if (cfg.run r).setsReplied then { st with replied := true } else st) with ⟨fst, snd⟩
        cases fst <;> simp [hs, dispatchFailure_thrown]
      | structured q =>
        rcases hs : attemptSend
          (if (cfg.run r).setsReplied then { st with replied := true } else st) with ⟨fst, snd⟩
        cases fst <;> simp [hs, dispatchFailure_thrown]

/-- Claim C7: for an interaction passing the guild filter whose check
resolves, the guard runs the run step on the resolved value; a string
result is replied ephemerally, a structured result is handed to reply
verbatim, and no result means no reply (all with no exception escaping). -/
theorem checkThenRun_run_dispatch {T : Type} (id : String) (cfg : GuardConfig T)
    (st : IState) (resolved : Option T)
    (hguild : ¬(cfg.guild.isSome ∧ st.guildId ≠ cfg.guild))
    (hcheck : resolvedOf cfg.check = some resolved)
    (hsend : st.sendOutcomes = []) :
    checkThenRun id cfg st = runPhase id cfg st resolved ∧
    ((cfg.run resolved).outcome = .ok none →
      (checkThenRun id cfg st).sent = [] ∧ (checkThenRun id cfg st).thrown = none) ∧
    (∀ s, (cfg.run resolved).outcome = .ok (some (.str s)) →
      (checkThenRun id cfg st).sent = [⟨.reply, .text s true⟩] ∧
      (checkThenRun id cfg st).thrown = none) ∧
    (∀ p, (cfg.run resolved).outcome = .ok (some (.structured p)) →
      (checkThenRun id cfg st).sent = [⟨.reply, .raw p⟩] ∧
      (checkThenRun id cfg st).thrown = none) := by
  have hmain : checkThenRun id cfg st = runPhase id cfg st resolved := by
    unfold checkThenRun
    rw [if_neg hguild]
    cases hc : cfg.check with
    | none =>
      rw [hc] at hcheck
      simp only [resolvedOf, Option.some.injEq] at hcheck
      show runPhase id cfg st none = runPhase id cfg st resolved
      exact congrArg (runPhase id cfg st) (by
        cases hcheck
        rfl)
    | some so =>
      cases so with
      | ok v =>
        rw [hc] at hcheck
        simp only [resolvedOf, Option.some.injEq] at hcheck
        show runPhase id cfg st (some v) = runPhase id cfg st resolved
        exact congrArg (runPhase id cfg st) (by
          cases hcheck
          rfl)
      | threw msg =>
        rw [hc] at hcheck
        simp [resolvedOf] at hcheck
  refine ⟨hmain, ?_, ?_, ?_⟩
  · intro hr
    rw [hmain]
    cases hb : (cfg.run resolved).setsReplied <;>
      simp [runPhase, hr, hb]
  · intro s hr
    rw [hmain]
    cases hb : (cfg.run resolved).setsReplied <;>
      simp [runPhase, hr, hb, attemptSend, hsend]
  · intro p hr
    rw [hmain]
    cases hb : (cfg.run resolved).setsReplied <;>
      simp [runPhase, hr, hb, attemptSend, hsend]

/-- Claim C7 witness: a concrete guarded dispatch whose run step returns
the string result. -/
theorem checkThenRun_run_dispatch_witness :
    (checkThenRun "w: /x"
      (⟨none, some (.ok 3), fun _ => ⟨false, .ok (some (.str "done"))⟩⟩ : GuardConfig Nat)
      ⟨none, false, []⟩).sent = [⟨.reply, .text "done" true⟩] ∧
    (checkThenRun "w: /x"
      (⟨none, some (.ok 3), fun _ => ⟨false, .ok (some (.str "done"))⟩⟩ : GuardConfig Nat)
      ⟨none, false, []⟩).thrown = none :=
  (checkThenRun_run_dispatch "w: /x"
    ⟨none, some (.ok 3), fun _ => ⟨false, .ok (some (.str "done"))⟩⟩
    ⟨none, false, []⟩ (some 3) (by simp) rfl rfl).2.2.1 "done" rfl

/-- Claim C3 counterexample: when the check step rejects and the
rejection reply itself fails, the guard propagates that failure to its
caller — contradicting "the guard never propagates an exception". -/
theorem checkThenRun_propagates_cx :
    (checkThenRun "m: /x"
      (⟨none, some (.threw "bad input"), fun _ => ⟨false, .ok none⟩⟩ : GuardConfig Nat)
      ⟨none, false, [some "network down"]⟩).thrown = some "network down" := by
  rfl

/-- Claim C3 (amended): the guard propagates an exception only when the
check step rejects and sending the rejection reply itself fails; every
failure in the run phase is recovered — logged under the registration's
id, answered with an error notice sent as a fresh reply when no reply
has been issued and as a follow-up otherwise, and a failure of that
notice is itself logged and swallowed with no retry. -/
theorem checkThenRun_error_recovery {T : Type} (id : String) (cfg : GuardConfig T)
    (st : IState) :
    ((∀ msg, cfg.check = some (.threw msg) → (attemptSend st).1 = none) →
      (checkThenRun id cfg st).thrown = none) ∧
    (∀ (resolved : Option T) (e : String), ¬(cfg.guild.isSome ∧ st.guildId ≠ cfg.guild) →
      resolvedOf cfg.check = some resolved →
      (cfg.run resolved).outcome = .threw e →
      checkThenRun id cfg st = dispatchFailure id e
        (if (cfg.run resolved).setsReplied then { st with replied := true } else st)) ∧
    (∀ (e : String) (st2 : IState),
      ((id ++ " failed") ∈ (dispatchFailure id e st2).logs ∧
        (dispatchFailure id e st2).thrown = none) ∧
      ((attemptSend st2).1 = none →
        (dispatchFailure id e st2).sent =
          [⟨(if st2.replied then SendKind.followUp else SendKind.reply),
            .text (errorNotice e) true⟩]) ∧
      ((attemptSend st2).1 ≠ none →
        (dispatchFailure id e st2).sent = [] ∧
        "Catastrophic failure trying to react to error" ∈ (dispatchFailure id e st2).logs)) := by
  refine ⟨?_, ?_, ?_⟩
  · intro hrej
    unfold checkThenRun
    by_cases hg : cfg.guild.isSome ∧ st.guildId ≠ cfg.guild
    · rw [if_pos hg]
    · rw [if_neg hg]
      cases hc : cfg.check with
      | none => exact runPhase_thrown id cfg st none
      | some so =>
        cases so with
        | ok v => exact runPhase_thrown id cfg st (some v)
        | threw msg =>
          have hsend := hrej msg hc
          rcases hs : attemptSend st with ⟨fst, snd⟩
          rw [hs] at hsend
          simp only at hsend
          subst hsend
          simp [hs]
  · intro resolved e hg hcheck hr
    unfold checkThenRun
    rw [if_neg hg]
    have hmain : ∀ r0 : Option T, resolved = r0 →
        runPhase id cfg st r0 = dispatchFailure id e
          (if (cfg.run resolved).setsReplied then { st with replied := true } else st) := by
      intro r0 hr0
      cases hr0
      simp [runPhase, hr]
    cases hc : cfg.check with
    | none =>
      rw [hc] at hcheck
      simp only [resolvedOf, Option.some.injEq] at hcheck
      exact hmain none (by
        cases hcheck
        rfl)
    | some so =>
      cases so with
      | ok v =>
        rw [hc] at hcheck
        simp only [resolvedOf, Option.some.injEq] at hcheck
        exact hmain (some v) (by
          cases hcheck
          rfl)
      | threw msg =>
        rw [hc] at hcheck
        simp [resolvedOf] at hcheck
  · intro e st2
    refine ⟨⟨?_, dispatchFailure_thrown id e st2⟩, ?_, ?_⟩
    · unfold dispatchFailure
      rcases hs : attemptSend st2 with ⟨fst, snd⟩
      cases fst <;> simp [hs]
    · intro hok
      unfold dispatchFailure
      rcases hs : attemptSend st2 with ⟨fst, snd⟩
      rw [hs] at hok
      simp only at hok
      subst hok
      simp [hs]
    · intro hfail
      unfold dispatchFailure
      rcases hs : attemptSend st2 with ⟨fst, snd⟩
      rw [hs] at hfail
      simp only at hfail
      cases fst with
      | none => exact absurd rfl hfail
      | some msg => simp [hs]

/-- Claim C3 witness: a concrete run-step failure whose error notice also
fails to send; the guard still swallows everything (no exception). -/
theorem checkThenRun_error_recovery_witness :
    (∀ msg, (some (StepOutcome.ok 2) : Option (StepOutcome Nat)) = some (.threw msg) →
      (attemptSend ⟨none, false, [some "boom"]⟩).1 = none) ∧
    (checkThenRun "w: /y"
      (⟨none, some (.ok 2), fun _ => ⟨false, .threw "kaput"⟩⟩ : GuardConfig Nat)
      ⟨none, false, [some "boom"]⟩).thrown = none :=
  ⟨fun _ h => absurd (Option.some.inj h) (fun hh => StepOutcome.noConfusion hh),
    (checkThenRun_error_recovery "w: /y"
      ⟨none, some (.ok 2), fun _ => ⟨false, .threw "kaput"⟩⟩
      ⟨none, false, [some "boom"]⟩).1
      (fun _ h => absurd (Option.some.inj h) (fun hh => StepOutcome.noConfusion hh))⟩

/-! ## Claim C9: module removal conflicts -/

/-- Claim C9: `ModuleHost.remove` fails exactly when no active module is
stored under the handle's id or the stored module is not the identical
instance; the failure is surfaced to the caller as an error (never
silent) and leaves the host — active collection, staged collection,
client capability subscription, registry log — unchanged. -/
theorem host_remove_conflict_spec (h : ModuleHost) (handle : Module) :
    ((h.remove handle).2.isSome ↔
      (lookupKey h.modules handle.id = none ∨
        ∃ mod, lookupKey h.modules handle.id = some mod ∧ mod.ref ≠ handle.ref)) ∧
    ((h.remove handle).2.isSome → (h.remove handle).1 = h) := by
  unfold ModuleHost.remove
  cases hm : lookupKey h.modules handle.id with
  | none =>
    refine ⟨?_, fun _ => rfl⟩
    simp
  | some mod =>
    dsimp only
    by_cases hr : handle.ref ≠ mod.ref
    · rw [if_pos hr]
      refine ⟨?_, fun _ => rfl⟩
      simp only [Option.isSome_some, true_iff]
      exact .inr ⟨mod, rfl, fun hh => hr hh.symm⟩
    · rw [if_neg hr]
      push_neg at hr
      refine ⟨?_, ?_⟩
      · simp only [Option.isSome_none, Bool.false_eq_true, false_iff]
        rintro (hnone | ⟨mod2, hm2, hne⟩)
        · exact Option.noConfusion hnone
        · rcases Option.some.inj hm2 with rfl
          exact hne hr.symm
      · intro hfalse
        simp at hfalse

/-- Claim C9 witness: removing a never-registered module from a fresh
host fails and leaves the host unchanged. -/
theorem host_remove_conflict_witness :
    (ModuleHost.make.remove ⟨"X", [], 4, [], [], []⟩).2.isSome = true ∧
    (ModuleHost.make.remove ⟨"X", [], 4, [], [], []⟩).1 = ModuleHost.make :=
  ⟨rfl, (host_remove_conflict_spec ModuleHost.make ⟨"X", [], 4, [], [], []⟩).2 rfl⟩

/-! ## Claim C2: no overlap between the old and the new module's subscriptions -/

/-- Removing the first subscription matching the head of the module's
sublist of the connection pops exactly that head: any earlier listener
matching the same (event, callback) pair would carry the same callback
reference and hence already belong to the sublist. -/
theorem removeFirst_filter_refs (refs : List Nat) (L : List Listener) :
    ∀ (p : Listener) (ps : List Listener),
      L.filter (fun l => refs.contains l.handlerRef) = p :: ps →
      (removeFirst L p.event p.handlerRef).filter
        (fun l => refs.contains l.handlerRef) = ps := by
  induction L with
  | nil =>
    intro p ps h
    simp at h
  | cons x L ih =>
    intro p ps h
    by_cases hx : (refs.contains x.handlerRef) = true
    · simp only [List.filter_cons, hx, if_true] at h
      rcases List.cons.inj h with ⟨rfl, h2⟩
      rw [show removeFirst (x :: L) x.event x.handlerRef = L by simp [removeFirst]]
      exact h2
    · simp only [List.filter_cons, hx, Bool.false_eq_true, if_false] at h
      have hp : (refs.contains p.handlerRef) = true := by
        have hmem : p ∈ List.filter (fun l => refs.contains l.handlerRef) L := by
          rw [h]
          exact List.mem_cons_self p ps
        exact (List.mem_filter.mp hmem).2
      have hcond : ¬(x.event = p.event ∧ x.handlerRef = p.handlerRef) := by
        rintro ⟨-, h2⟩
        rw [h2] at hx
        exact hx hp
      rw [show removeFirst (x :: L) p.event p.handlerRef =
          x :: removeFirst L p.event p.handlerRef by simp [removeFirst, hcond]]
      simp only [List.filter_cons, hx, Bool.false_eq_true, if_false]
      exact ih p ps h

/-- Removing, in order, a sequence of subscriptions that is exactly the
module's sublist of the connection drains every listener of the module
from the connection, leaving foreign listeners alone. -/
theorem removeSeq_drains (refs : List Nat) :
    ∀ (ps L : List Listener),
      L.filter (fun l => refs.contains l.handlerRef) = ps →
      ((ps.foldl (fun ls q => removeFirst ls q.event q.handlerRef) L).filter
        (fun l => refs.contains l.handlerRef)) = [] := by
  intro ps
  induction ps with
  | nil =>
    intro L h
    simpa using h
  | cons p ps ih =>
    intro L h
    simp only [List.foldl_cons]
    exact ih _ (removeFirst_filter_refs refs L p ps h)

/-- Claim C2: in the listener phase of any `commitStaged` iteration that
replaces an active module, the old module's `clearFromClient` completes
before the new module's `applyToClient` begins; at every intermediate
client state — through each individual removal and installation — the
two versions are never simultaneously live on the connection.  The
connection may hold arbitrary other listeners (other active modules'
subscriptions, the host's ready listener, listeners attached by earlier
iterations): the hypotheses say only that the two instances' callbacks
are distinct closures (`hdisj` — each registration stores a fresh
closure), that the staged instance's callbacks are not yet subscribed
anywhere (`hafter` — it was never attached), and that the old module's
subscriptions sit on the connection exactly as its one `applyToClient`
installed them, in order, possibly interleaved with foreign listeners
(`hb`). -/
theorem commit_no_overlap (b after : Module) (c : Client)
    (hdisj : ∀ r ∈ b.handlerRefs, r ∉ after.handlerRefs)
    (hafter : ∀ l ∈ c.listeners, l.handlerRef ∉ after.handlerRefs)
    (hb : c.listeners.filter (fun l => b.handlerRefs.contains l.handlerRef) = b.attachPairs) :
    ∀ s ∈ commitListenerTrace b after c, ¬(b.liveOn s ∧ after.liveOn s) := by
  intro s hs
  unfold commitListenerTrace at hs
  rcases List.mem_append.mp hs with h1 | h2
  · -- removal phase: `after` is never live
    have hp : ∀ l ∈ s.listeners, l.handlerRef ∉ after.handlerRefs := by
      refine scanl_invariant
        (fun cl (l : Listener) => cl.removeListener l.event l.handlerRef)
        (fun cl => ∀ l ∈ cl.listeners, l.handlerRef ∉ after.handlerRefs)
        b.attachPairs c hafter ?_ s h1
      intro p _ cl hcl l hl
      exact hcl l (removeFirst_subset cl.listeners p.event p.handlerRef l hl)
    rintro ⟨_, ⟨l, hl, hlr⟩⟩
    exact hp l hl hlr
  · -- installation phase: `b` is never live
    have hstart : ∀ l ∈ (b.clearFromClient c).listeners, l.handlerRef ∉ b.handlerRefs := by
      have hdrain := removeSeq_drains b.handlerRefs b.attachPairs c.listeners hb
      rw [← clearFromClient_listeners] at hdrain
      intro l hl hlr
      have hmem : l ∈ List.filter (fun l => b.handlerRefs.contains l.handlerRef)
          (b.clearFromClient c).listeners :=
        List.mem_filter.mpr ⟨hl, List.elem_iff.mpr hlr⟩
      rw [hdrain] at hmem
      exact absurd hmem (List.not_mem_nil l)
    have hp : ∀ l ∈ s.listeners, l.handlerRef ∉ b.handlerRefs := by
      refine scanl_invariant
        (fun cl (l : Listener) => { cl with listeners := cl.listeners ++ [l] })
        (fun cl => ∀ l ∈ cl.listeners, l.handlerRef ∉ b.handlerRefs)
        after.attachPairs (b.clearFromClient c) hstart ?_ s h2
      intro p hpmem cl hcl l hl
      rcases List.mem_append.mp hl with hold | hnew
      · exact hcl l hold
      · rcases List.mem_singleton.mp hnew with rfl
        intro hbmem
        exact hdisj l.handlerRef hbmem (attachPairs_ref_mem after l hpmem)
    rintro ⟨⟨l, hl, hlr⟩, _⟩
    exact hp l hl hlr

/-- Claim C2 witness: the no-overlap property evaluated on a concrete
replacement — old module with callback 10, new module with callback 20,
on a connection also carrying the host's ready listener (ref 0) and
another active module's subscription (ref 30); the inspected state is
the final one, after the new module's installation. -/
theorem commit_no_overlap_witness :
    ((∀ r ∈ (⟨"A", [], 1, [("A: when #1", ⟨["messageCreate"], false, 10⟩)], [], []⟩ :
        Module).handlerRefs,
      r ∉ (⟨"A", [], 2, [("A: when #2", ⟨["messageCreate"], false, 20⟩)], [], []⟩ :
        Module).handlerRefs) ∧
     (∀ l ∈ (⟨[⟨"ready", 0, true⟩, ⟨"messageCreate", 30, false⟩,
          ⟨"messageCreate", 10, false⟩], [], false⟩ : Client).listeners,
      l.handlerRef ∉ (⟨"A", [], 2, [("A: when #2", ⟨["messageCreate"], false, 20⟩)], [], []⟩ :
        Module).handlerRefs) ∧
     (⟨[⟨"ready", 0, true⟩, ⟨"messageCreate", 30, false⟩,
          ⟨"messageCreate", 10, false⟩], [], false⟩ : Client).listeners.filter
        (fun l => (⟨"A", [], 1, [("A: when #1", ⟨["messageCreate"], false, 10⟩)], [], []⟩ :
          Module).handlerRefs.contains l.handlerRef) =
      (⟨"A", [], 1, [("A: when #1", ⟨["messageCreate"], false, 10⟩)], [], []⟩ :
        Module).attachPairs) ∧
    ¬((⟨"A", [], 1, [("A: when #1", ⟨["messageCreate"], false, 10⟩)], [], []⟩ :
        Module).liveOn ⟨[⟨"ready", 0, true⟩, ⟨"messageCreate", 30, false⟩,
          ⟨"messageCreate", 20, false⟩], [], false⟩ ∧
      (⟨"A", [], 2, [("A: when #2", ⟨["messageCreate"], false, 20⟩)], [], []⟩ :
        Module).liveOn ⟨[⟨"ready", 0, true⟩, ⟨"messageCreate", 30, false⟩,
          ⟨"messageCreate", 20, false⟩], [], false⟩) :=
  ⟨⟨by decide, by decide, by decide⟩,
    commit_no_overlap
      ⟨"A", [], 1, [("A: when #1", ⟨["messageCreate"], false, 10⟩)], [], []⟩
      ⟨"A", [], 2, [("A: when #2", ⟨["messageCreate"], false, 20⟩)], [], []⟩
      ⟨[⟨"ready", 0, true⟩, ⟨"messageCreate", 30, false⟩,
        ⟨"messageCreate", 10, false⟩], [], false⟩
      (by decide) (by decide) (by decide)
      ⟨[⟨"ready", 0, true⟩, ⟨"messageCreate", 30, false⟩,
        ⟨"messageCreate", 20, false⟩], [], false⟩ (by decide)⟩

/-! ## Claim C1: capability coverage and post-reconnect re-attachment -/

theorem clearFromClient_intents_eq (m : Module) (c : Client) :
    (m.clearFromClient c).intents = c.intents :=
  (clearFromClient_intents m c).1

theorem foldl_applyToClient_eq (ms : List Module) (c : Client) :
    ms.foldl (fun cl m => m.applyToClient cl) c =
      { c with listeners := c.listeners ++ (ms.map Module.attachPairs).flatten } := by
  induction ms generalizing c with
  | nil => simp
  | cons m ms ih =>
    simp only [List.foldl_cons, List.map_cons, List.flatten_cons]
    rw [applyToClient_eq, ih]
    simp

theorem resetClient_props (h : ModuleHost) :
    h.resetClient.modules = h.modules ∧
    h.resetClient.stagedModules = h.stagedModules ∧
    h.resetClient.client.intents = h.client.intents ++
      (((h.modules.map Prod.snd).map Module.intents).flatten).filter
        (fun i => !(h.client.intents.contains i)) ∧
    h.resetClient.client.listeners =
      (⟨clientReadyEvent, hostReadyRef, true⟩ : Listener) ::
        ((h.modules.map Prod.snd).map Module.attachPairs).flatten := by
  simp only [ModuleHost.resetClient]
  rw [foldl_applyToClient_eq]
  cases hr : h.client.ready <;>
    simp [Client.destroy, Client.onceSub]

theorem resetClient_covered (h : ModuleHost) : intentsCovered h.resetClient := by
  intro p hp i hi
  obtain ⟨hm, _, hint, _⟩ := resetClient_props h
  rw [hm] at hp
  rw [hint]
  apply List.mem_append.mpr
  by_cases hc : i ∈ h.client.intents
  · exact .inl hc
  · refine .inr (List.mem_filter.mpr ⟨?_, ?_⟩)
    · exact List.mem_flatten.mpr ⟨p.2.intents,
        List.mem_map.mpr ⟨p.2, List.mem_map.mpr ⟨p, hp, rfl⟩, rfl⟩, hi⟩
    · simpa [List.elem_iff] using hc

theorem resetClient_allAttached (h : ModuleHost) : allAttached h.resetClient := by
  intro p hp l hl
  obtain ⟨hm, _, _, hlist⟩ := resetClient_props h
  rw [hm] at hp
  rw [hlist]
  exact List.mem_cons_of_mem _ (List.mem_flatten.mpr ⟨p.2.attachPairs,
    List.mem_map.mpr ⟨p.2, List.mem_map.mpr ⟨p, hp, rfl⟩, rfl⟩, hl⟩)

theorem commitOne_covered (h : ModuleHost) (k : String) (hcov : intentsCovered h) :
    intentsCovered (h.commitOne k) := by
  unfold ModuleHost.commitOne
  cases hstg : lookupKey h.stagedModules k with
  | none => exact hcov
  | some after =>
    dsimp only
    cases hmb : lookupKey h.modules k with
    | none =>
      dsimp only
      simp only [applyToClient_eq]
      by_cases hmiss :
          (after.intents.filter (fun i => !(h.client.intents.contains i))).isEmpty = true
      · rw [if_pos hmiss]
        intro p hp i hi
        rcases mem_insertOverwrite _ _ _ p hp with heq | hmem
        · subst heq
          have := (List.filter_eq_nil_iff.mp (List.isEmpty_iff.mp hmiss)) i hi
          simpa [List.elem_iff] using this
        · exact hcov p hmem i hi
      · rw [if_neg hmiss]
        exact resetClient_covered _
    | some before =>
      dsimp only
      simp only [applyToClient_eq, clearFromClient_intents_eq]
      by_cases hmiss :
          (after.intents.filter (fun i => !(h.client.intents.contains i))).isEmpty = true
      · rw [if_pos hmiss]
        intro p hp i hi
        rcases mem_insertOverwrite _ _ _ p hp with heq | hmem
        · subst heq
          have := (List.filter_eq_nil_iff.mp (List.isEmpty_iff.mp hmiss)) i hi
          simpa [List.elem_iff] using this
        · exact hcov p hmem i hi
      · rw [if_neg hmiss]
        exact resetClient_covered _

theorem commitOne_reconnect_attached (g : ModuleHost) (k : String) (after : Module)
    (hstg : lookupKey g.stagedModules k = some after)
    (hmiss : (after.intents.filter (fun i => !(g.client.intents.contains i))).isEmpty = false) :
    allAttached (g.commitOne k) := by
  unfold ModuleHost.commitOne
  rw [hstg]
  dsimp only
  cases hmb : lookupKey g.modules k with
  | none =>
    dsimp only
    simp only [applyToClient_eq]
    rw [if_neg (by rw [hmiss]; exact Bool.false_ne_true)]
    exact resetClient_allAttached _
  | some before =>
    dsimp only
    simp only [applyToClient_eq, clearFromClient_intents_eq]
    rw [if_neg (by rw [hmiss]; exact Bool.false_ne_true)]
    exact resetClient_allAttached _

theorem commitLoop_covered (ks : List String) (h : ModuleHost)
    (hcov : intentsCovered h) : intentsCovered (h.commitLoop ks) := by
  induction ks generalizing h with
  | nil => exact hcov
  | cons k ks ih =>
    show intentsCovered ((h.commitOne k).commitLoop ks)
    exact ih _ (commitOne_covered h k hcov)

/-- Claim C1: if the capability subscription covers every active
module's requirements when `commitStaged` starts, it still does after
the run completes (each iteration either finds the staged module's
intents already subscribed or reconnects with the union of all active
modules' intents); and whenever an iteration forces a reconnect because
intents were missing, every module active at that moment has all of its
event and command registrations re-attached to the fresh connection. -/
theorem commitStaged_capability_spec (h : ModuleHost) (hcov : intentsCovered h) :
    intentsCovered h.commitStaged ∧
    (∀ (g : ModuleHost) (k : String) (after : Module),
      lookupKey g.stagedModules k = some after →
      (after.intents.filter (fun i => !(g.client.intents.contains i))).isEmpty = false →
      allAttached (g.commitOne k)) :=
  ⟨commitLoop_covered (h.stagedModules.map Prod.fst) h hcov,
    fun g k after hstg hmiss => commitOne_reconnect_attached g k after hstg hmiss⟩

/-- Claim C1 witness: committing a staged module that requires a new
intent, starting from a fresh host (whose empty active collection is
trivially covered); the result is again covered. -/
theorem commitStaged_capability_witness :
    intentsCovered (ModuleHost.make.beginModule "m" [99] 5).1 ∧
    intentsCovered (ModuleHost.make.beginModule "m" [99] 5).1.commitStaged :=
  ⟨fun p hp => absurd hp (List.not_mem_nil p),
    (commitStaged_capability_spec (ModuleHost.make.beginModule "m" [99] 5).1
      (fun p hp => absurd hp (List.not_mem_nil p))).1⟩

end Cordette
